import Mathlib

/-!
Verification of the FAT-style archive engine of libgamearchive.

The definitions below are a shallow embedding of `FATArchive` from
`fatarchive.cpp` (insert / remove / shiftFiles / resize) and of the
Monster Bash strategy hook `Archive_DAT_Bash::updateFileSize` from
`fmt-dat-bash.cpp`.  File entries are identified by a numeric `eid`
standing for the C++ object identity (pointer); the logical byte
stream of the archive (the segmented stream's content) is a list of
bytes; signed stream offsets/deltas (`io::stream_offset`,
`std::streamsize`) are modelled as `Int`, unsigned sizes as `Nat`.
-/

namespace GameArchive

/-- One FAT entry (`FATArchive::FATEntry`).  `eid` models the identity of
the heap object (pointer equality); `iSize` is the stored size
(`storedSize` in the 2016 field naming), `realSize` the decompressed
size.  `lenHeader` is the size of the embedded per-file header. -/
structure FATEntry where
  eid : Nat
  iIndex : Int
  iOffset : Int
  lenHeader : Nat
  iSize : Nat
  realSize : Nat
  strName : String
  ftype : String
  fAttr : Nat
  bValid : Bool
deriving DecidableEq, Repr

/-- Archive state: the in-memory file vector (`vcFAT`), the logical byte
stream presented by the segmented stream, and the offset at which the
first file goes when the archive is empty. -/
structure ArchState where
  vcFAT : List FATEntry
  data : List Nat
  offFirstFile : Int
deriving DecidableEq, Repr

/-- Segmented-stream `insert(n)` at position `p`: splice `n`
zero-initialised bytes into the logical stream. -/
def streamInsert (s : List Nat) (p n : Nat) : List Nat :=
  s.take p ++ List.replicate n 0 ++ s.drop p

/-- Segmented-stream `remove(n)` at position `p`: splice `n` bytes out of
the logical stream. -/
def streamRemove (s : List Nat) (p n : Nat) : List Nat :=
  s.take p ++ s.drop (p + n)

/-- Overwrite the bytes of `s` starting at position `p` with `bs`
(random-access write through the segmented stream). -/
def writeBytesAt (s : List Nat) (p : Nat) (bs : List Nat) : List Nat :=
  s.take p ++ bs ++ s.drop (p + bs.length)

/-- Little-endian encoding of a 16-bit value (`u16le`). -/
def u16le (n : Nat) : List Nat :=
  [n % 256, n / 256 % 256]

/-- The body of the loop of `FATArchive::shiftFiles`, traversing `vcFAT`
in order.  It returns the updated vector together with the trace of
calls made to the strategy hook `updateFileOffset`: each trace element
records the entry exactly as the hook sees it (offset and index already
updated) and the `deltaOffset` argument. -/
def shiftFilesAux (skip : Option Nat) (offStart deltaOffset deltaIndex : Int) :
    List FATEntry → List FATEntry × List (FATEntry × Int)
  | [] => ([], [])
  | e :: rest =>
    let r := shiftFilesAux skip offStart deltaOffset deltaIndex rest
    if skip = some e.eid then (e :: r.1, r.2)
    else if offStart ≤ e.iOffset then
      let e' := { e with iOffset := e.iOffset + deltaOffset,
                         iIndex := e.iIndex + deltaIndex }
      (e' :: r.1, (e', deltaOffset) :: r.2)
    else (e :: r.1, r.2)

/-- Per-entry effect of a shift as the specification words it: an entry
that is not the skip entry and whose offset is at least `offStart` has
`deltaOffset` added to its offset and `deltaIndex` added to its index;
every other entry is untouched. -/
def shiftEntrySpec (skip : Option Nat) (offStart deltaOffset deltaIndex : Int)
    (e : FATEntry) : FATEntry :=
  if skip = some e.eid then e
  else if offStart ≤ e.iOffset then
    { e with iOffset := e.iOffset + deltaOffset, iIndex := e.iIndex + deltaIndex }
  else e

/-- Linear scan of the file vector for the entry with a given identity
(the model of dereferencing an `EntryPtr` handle). -/
def findEid : List FATEntry → Nat → Option FATEntry
  | [], _ => none
  | e :: rest, i => if e.eid = i then some e else findEid rest i

/-- Model of `isValid(idBeforeThis)` followed by the dereference of the
handle: a handle is valid when it is non-null and its entry has
`bValid` set. -/
def findValidEntry (st : ArchState) (id : Option Nat) : Option FATEntry :=
  match id with
  | none => none
  | some i =>
    match findEid st.vcFAT i with
    | some e => if e.bValid then some e else none
    | none => none

/-- Model of `vcFAT.insert(itBeforeThis, ep)`: insert `x` immediately
before the entry whose identity is `b` (`std::find` locates the handle
in the vector). -/
def insertBeforeEid : List FATEntry → Nat → FATEntry → List FATEntry
  | [], _, x => [x]
  | e :: rest, b, x =>
    if e.eid = b then x :: e :: rest else e :: insertBeforeEid rest b x

/-- Model of `vcFAT.erase(itErase)`: erase the entry whose identity is
`i`. -/
def eraseFirstEid : List FATEntry → Nat → List FATEntry
  | [], _ => []
  | e :: rest, i => if e.eid = i then rest else e :: eraseFirstEid rest i

/-- The offset at which `FATArchive::insert` places the new file's
record: the before-entry's offset when the insertion point is valid,
otherwise the end of the last file, or `offFirstFile` for an empty
archive. -/
def insertTargetOff (st : ArchState) (idBeforeThis : Option Nat) : Int :=
  match findValidEntry st idBeforeThis with
  | some before => before.iOffset
  | none =>
    match st.vcFAT.getLast? with
    | some last => last.iOffset + (last.lenHeader : Int) + (last.iSize : Int)
    | none => st.offFirstFile

/-- The entry `FATArchive::insert` creates when the insertion point is
valid: the new file takes the before-entry's offset and index, and with
the default `preInsertFile` hook its `lenHeader` stays zero. -/
def newEntryMid (before : FATEntry) (newEid : Nat) (nm : String) (sz : Nat)
    (ty : String) (attr : Nat) : FATEntry :=
  { eid := newEid, iIndex := before.iIndex, iOffset := before.iOffset,
    lenHeader := 0, iSize := sz, realSize := sz,
    strName := nm, ftype := ty, fAttr := attr, bValid := true }

/-- The entry `FATArchive::insert` creates when appending behind the last
file of a non-empty archive. -/
def newEntryEnd (last : FATEntry) (newEid : Nat) (nm : String) (sz : Nat)
    (ty : String) (attr : Nat) : FATEntry :=
  { eid := newEid, iIndex := last.iIndex + 1,
    iOffset := last.iOffset + (last.lenHeader : Int) + (last.iSize : Int),
    lenHeader := 0, iSize := sz, realSize := sz,
    strName := nm, ftype := ty, fAttr := attr, bValid := true }

/-- The entry `FATArchive::insert` creates in an empty archive: it goes
at `offFirstFile` with index 0. -/
def newEntryEmpty (offFirstFile : Int) (newEid : Nat) (nm : String) (sz : Nat)
    (ty : String) (attr : Nat) : FATEntry :=
  { eid := newEid, iIndex := 0, iOffset := offFirstFile,
    lenHeader := 0, iSize := sz, realSize := sz,
    strName := nm, ftype := ty, fAttr := attr, bValid := true }

/-- Shallow embedding of `FATArchive::insert` with the default format
hooks (`preInsertFile` leaves the entry as created with `lenHeader = 0`
and writes nothing; `updateFileOffset` and `postInsertFile` are no-ops,
as in the base class).  `newEid` is the identity of the freshly
allocated entry returned by `createNewFATEntry`.  When `idBeforeThis`
is valid the engine shifts every file at or after the insertion point
forward by the new file's size, inserts the entry before the handle in
the vector, and splices the file's bytes into the stream; otherwise it
appends at the end of the archive. -/
def insertF (st : ArchState) (idBeforeThis : Option Nat) (newEid : Nat)
    (strFilename : String) (iSize : Nat) (ftype : String) (attr : Nat) :
    ArchState :=
  match findValidEntry st idBeforeThis with
  | some before =>
    let pNew := newEntryMid before newEid strFilename iSize ftype attr
    let shifted := (shiftFilesAux (some newEid)
      (pNew.iOffset + (pNew.lenHeader : Int)) (pNew.iSize : Int) 1 st.vcFAT).1
    { st with
      vcFAT := insertBeforeEid shifted before.eid pNew,
      data := streamInsert st.data
        (pNew.iOffset + (pNew.lenHeader : Int)).toNat pNew.iSize }
  | none =>
    let pNew :=
      match st.vcFAT.getLast? with
      | some last => newEntryEnd last newEid strFilename iSize ftype attr
      | none => newEntryEmpty st.offFirstFile newEid strFilename iSize ftype attr
    { st with
      vcFAT := st.vcFAT ++ [pNew],
      data := streamInsert st.data
        (pNew.iOffset + (pNew.lenHeader : Int)).toNat pNew.iSize }

/-- Shallow embedding of `FATArchive::remove` with the default format
hooks: erase the handle's entry from the vector, shift every file at or
after its offset back by the removed extent (data plus embedded
header), and splice the file's bytes out of the stream.  When the
handle does not resolve (the C++ code asserts) the state is returned
unchanged. -/
def removeF (st : ArchState) (eid : Nat) : ArchState :=
  match findEid st.vcFAT eid with
  | none => st
  | some pFATDel =>
    let vc1 := eraseFirstEid st.vcFAT eid
    let vc2 := (shiftFilesAux (some eid) pFATDel.iOffset
      (-((pFATDel.iSize : Int) + (pFATDel.lenHeader : Int))) (-1) vc1).1
    { st with
      vcFAT := vc2,
      data := streamRemove st.data pFATDel.iOffset.toNat
        (pFATDel.iSize + pFATDel.lenHeader) }

/-- Error raised by the Monster Bash size-limit checks (the two
`stream::error` throws in `Archive_DAT_Bash::updateFileSize`). -/
inductive BashError where
  | storedSizeLimit
  | realSizeLimit
deriving DecidableEq, Repr

/-- Attribute bit used for `File::Attribute::Compressed` in the model. -/
def attrCompressed : Nat := 1

/-- Shallow embedding of `Archive_DAT_Bash::updateFileSize`: refuse a
stored or real size above 65535, otherwise write the stored size
(u16le at entry offset + 2) and the decompressed size (u16le at entry
offset + 35, or zero when the entry is not compressed) into the
embedded FAT record.  The entry passed in already carries its new
sizes, exactly as the engine calls the hook. -/
def bashUpdateFileSize (st : ArchState) (pid : FATEntry) :
    ArchState × Option BashError :=
  if pid.iSize > 65535 then (st, some .storedSizeLimit)
  else if pid.realSize > 65535 then (st, some .realSizeLimit)
  else
    let d1 := writeBytesAt st.data (pid.iOffset + 2).toNat (u16le pid.iSize)
    let d2 := writeBytesAt d1 (pid.iOffset + 2 + 2 + 31).toNat
      (u16le (if pid.fAttr &&& attrCompressed ≠ 0 then pid.realSize else 0))
    ({ st with data := d2 }, none)

/-- Modelled from the spec: the two-size `Archive_FAT::resize` (the 2016
`archive-fat.cpp` is not among the sources; only the single-size 2010
`FATArchive::resize` is).  Following spec section 4.D and the operation
order of the 2010 `FATArchive::resize` in `fatarchive.cpp`: compute the
stored-size delta, splice bytes into or out of the stream, update the
entry's stored and real sizes, then call the strategy's
`updateFileSize` (here the Monster Bash hook), and finally shift the
remaining entries.  A throw from `updateFileSize` propagates, leaving
the state as mutated so far. -/
def resizeBash (st : ArchState) (eid : Nat)
    (newStoredSize newRealSize : Nat) : ArchState × Option BashError :=
  match findEid st.vcFAT eid with
  | none => (st, none)
  | some pFAT =>
    let iDelta : Int := (newStoredSize : Int) - (pFAT.iSize : Int)
    let iStart : Int :=
      if 0 < iDelta then pFAT.iOffset + (pFAT.lenHeader : Int) + (pFAT.iSize : Int)
      else pFAT.iOffset + (pFAT.lenHeader : Int) + (newStoredSize : Int)
    let data' :=
      if 0 < iDelta then streamInsert st.data iStart.toNat iDelta.toNat
      else if iDelta < 0 then streamRemove st.data iStart.toNat (-iDelta).toNat
      else st.data
    let pFAT' := { pFAT with iSize := newStoredSize, realSize := newRealSize }
    let st1 : ArchState :=
      { st with
        vcFAT := st.vcFAT.map (fun e => if e.eid = eid then pFAT' else e),
        data := data' }
    match bashUpdateFileSize st1 pFAT' with
    | (st2, some err) => (st2, some err)
    | (st2, none) =>
      ({ st2 with
        vcFAT := (shiftFilesAux (some eid) iStart iDelta 0 st2.vcFAT).1 },
        none)

/-- The empty archive with the first file going at offset 0. -/
def emptyArch : ArchState := { vcFAT := [], data := [], offFirstFile := 0 }

/-- An archive holding a single zero-byte file at offset 0, as produced
by inserting a zero-byte file into the empty archive. -/
def archC1 : ArchState := insertF emptyArch none 0 "a" 0 "t" 0

/-- A two-file archive (4-byte and 6-byte files stored contiguously)
used as a concrete witness input. -/
def archW : ArchState :=
  { vcFAT := [
      { eid := 0, iIndex := 0, iOffset := 0, lenHeader := 0, iSize := 4,
        realSize := 4, strName := "one", ftype := "t", fAttr := 0,
        bValid := true },
      { eid := 1, iIndex := 1, iOffset := 4, lenHeader := 0, iSize := 6,
        realSize := 6, strName := "two", ftype := "t", fAttr := 0,
        bValid := true }],
    data := List.replicate 10 0,
    offFirstFile := 0 }

/-- A Monster Bash entry: 37-byte embedded FAT header followed by 10
bytes of data. -/
def bashE0 : FATEntry :=
  { eid := 0, iIndex := 0, iOffset := 0, lenHeader := 37, iSize := 10,
    realSize := 10, strName := "x.snd", ftype := "sound/bash", fAttr := 0,
    bValid := true }

/-- A Monster Bash .DAT archive holding the single entry `bashE0`. -/
def archBash : ArchState :=
  { vcFAT := [bashE0], data := List.replicate 47 0, offFirstFile := 0 }

/- ========================= helper lemmas ========================= -/

theorem shiftFilesAux_fst (skip : Option Nat) (offStart dO dI : Int)
    (l : List FATEntry) :
    (shiftFilesAux skip offStart dO dI l).1 =
      l.map (shiftEntrySpec skip offStart dO dI) := by
  induction l with
  | nil => rfl
  | cons e rest ih =>
    simp only [shiftFilesAux, List.map_cons, shiftEntrySpec]
    split_ifs <;> simp [ih]

theorem shiftEntrySpec_eid (skip : Option Nat) (offStart dO dI : Int)
    (e : FATEntry) : (shiftEntrySpec skip offStart dO dI e).eid = e.eid := by
  unfold shiftEntrySpec
  split_ifs <;> rfl

theorem map_eid_shift (skip : Option Nat) (offStart dO dI : Int)
    (l : List FATEntry) :
    (l.map (shiftEntrySpec skip offStart dO dI)).map FATEntry.eid =
      l.map FATEntry.eid := by
  induction l with
  | nil => rfl
  | cons e rest ih =>
    simp only [List.map_cons, shiftEntrySpec_eid, ih]

theorem map_id_of_mem {l : List FATEntry} {g : FATEntry → FATEntry}
    (h : ∀ e ∈ l, g e = e) : l.map g = l := by
  induction l with
  | nil => rfl
  | cons e rest ih =>
    simp only [List.map_cons, h e (by simp)]
    rw [ih (fun x hx => h x (by simp [hx]))]

theorem shiftEntrySpec_cancel (k : Nat) (F : Int) (sz : Nat) (e : FATEntry)
    (h : e.eid ≠ k) :
    shiftEntrySpec (some k) F (-(sz : Int)) (-1)
      (shiftEntrySpec (some k) F (sz : Int) 1 e) = e := by
  have hk : ¬ ((some k : Option Nat) = some e.eid) := by
    simpa using Ne.symm h
  by_cases hoff : F ≤ e.iOffset
  · have hinner : shiftEntrySpec (some k) F (sz : Int) 1 e =
        { e with iOffset := e.iOffset + (sz : Int), iIndex := e.iIndex + 1 } := by
      unfold shiftEntrySpec
      rw [if_neg hk, if_pos hoff]
    rw [hinner]
    unfold shiftEntrySpec
    rw [if_neg (by simpa using Ne.symm h)]
    rw [if_pos (show F ≤ e.iOffset + (sz : Int) by omega)]
    show FATEntry.mk e.eid (e.iIndex + 1 + -1) (e.iOffset + (sz : Int) + -(sz : Int))
        e.lenHeader e.iSize e.realSize e.strName e.ftype e.fAttr e.bValid = e
    rw [add_neg_cancel_right, add_neg_cancel_right]
  · have hinner : shiftEntrySpec (some k) F (sz : Int) 1 e = e := by
      unfold shiftEntrySpec
      rw [if_neg hk, if_neg hoff]
    rw [hinner]
    unfold shiftEntrySpec
    rw [if_neg hk, if_neg hoff]

theorem findEid_insertBeforeEid (l : List FATEntry) (b i : Nat) (x : FATEntry)
    (hi : x.eid = i) (h : i ∉ l.map FATEntry.eid) :
    findEid (insertBeforeEid l b x) i = some x := by
  induction l with
  | nil => simp [insertBeforeEid, findEid, hi]
  | cons e rest ih =>
    simp only [List.map_cons, List.mem_cons, not_or] at h
    by_cases hb : e.eid = b
    · simp [insertBeforeEid, hb, findEid, hi]
    · simp only [insertBeforeEid]
      rw [if_neg hb]
      simp only [findEid]
      rw [if_neg (fun hc => h.1 hc.symm)]
      exact ih h.2

theorem eraseFirstEid_insertBeforeEid (l : List FATEntry) (b i : Nat)
    (x : FATEntry) (hi : x.eid = i) (h : i ∉ l.map FATEntry.eid) :
    eraseFirstEid (insertBeforeEid l b x) i = l := by
  induction l with
  | nil => simp [insertBeforeEid, eraseFirstEid, hi]
  | cons e rest ih =>
    simp only [List.map_cons, List.mem_cons, not_or] at h
    by_cases hb : e.eid = b
    · simp [insertBeforeEid, hb, eraseFirstEid, hi]
    · simp only [insertBeforeEid]
      rw [if_neg hb]
      simp only [eraseFirstEid]
      rw [if_neg (fun hc => h.1 hc.symm)]
      exact congrArg (e :: ·) (ih h.2)

theorem findEid_append_last (l : List FATEntry) (i : Nat) (x : FATEntry)
    (hi : x.eid = i) (h : i ∉ l.map FATEntry.eid) :
    findEid (l ++ [x]) i = some x := by
  induction l with
  | nil => simp [findEid, hi]
  | cons e rest ih =>
    simp only [List.map_cons, List.mem_cons, not_or] at h
    simp only [List.cons_append, findEid]
    rw [if_neg (fun hc => h.1 hc.symm)]
    exact ih h.2

theorem eraseFirstEid_append_last (l : List FATEntry) (i : Nat) (x : FATEntry)
    (hi : x.eid = i) (h : i ∉ l.map FATEntry.eid) :
    eraseFirstEid (l ++ [x]) i = l := by
  induction l with
  | nil => simp [eraseFirstEid, hi]
  | cons e rest ih =>
    simp only [List.map_cons, List.mem_cons, not_or] at h
    simp only [List.cons_append, eraseFirstEid]
    rw [if_neg (fun hc => h.1 hc.symm)]
    exact congrArg (e :: ·) (ih h.2)

theorem shiftEntrySpec_of_lt (skip : Option Nat) (F dO dI : Int)
    (e : FATEntry) (h : e.iOffset < F) :
    shiftEntrySpec skip F dO dI e = e := by
  unfold shiftEntrySpec
  split_ifs with h1 h2
  · rfl
  · exact absurd h2 (not_le.mpr h)
  · rfl

theorem streamInsert_length (s : List Nat) (p n : Nat) :
    (streamInsert s p n).length = s.length + n := by
  simp [streamInsert]
  omega

theorem findEid_eq (l : List FATEntry) (i : Nat) (e : FATEntry)
    (h : findEid l i = some e) : e.eid = i := by
  induction l with
  | nil => simp [findEid] at h
  | cons a rest ih =>
    simp only [findEid] at h
    split_ifs at h with ha
    · cases h
      exact ha
    · exact ih h

theorem findEid_map_update (l : List FATEntry) (i : Nat) (e x : FATEntry)
    (hx : x.eid = i) (h : findEid l i = some e) :
    findEid (l.map (fun a => if a.eid = i then x else a)) i = some x := by
  induction l with
  | nil => simp [findEid] at h
  | cons a rest ih =>
    by_cases ha : a.eid = i
    · simp [List.map_cons, ha, findEid, hx]
    · simp only [findEid] at h
      rw [if_neg ha] at h
      simp only [List.map_cons]
      rw [if_neg ha]
      simp only [findEid]
      rw [if_neg ha]
      exact ih h

theorem streamRemove_streamInsert (s : List Nat) (p n : Nat)
    (h : p ≤ s.length) :
    streamRemove (streamInsert s p n) p n = s := by
  unfold streamInsert streamRemove
  have hlen : (s.take p).length = p := by
    simp [List.length_take, Nat.min_eq_left h]
  have h0 : p - (p + n) = 0 := by omega
  have hpn : p + n - p = n := by omega
  have hA2 : (s.take p).drop (p + n) = [] :=
    List.drop_eq_nil_of_le (by rw [hlen]; omega)
  have hR : (List.replicate n (0 : Nat)).drop n = [] :=
    List.drop_eq_nil_of_le (by simp)
  simp [List.take_append_eq_append_take, List.drop_append_eq_append_drop,
    hlen, h0, hpn, hA2, hR, List.take_take, List.take_append_drop]

theorem removeF_append_fresh (st : ArchState) (x : FATEntry) (i : Nat)
    (hi : x.eid = i) (hlh : x.lenHeader = 0)
    (hfresh : i ∉ st.vcFAT.map FATEntry.eid)
    (hlt : ∀ e ∈ st.vcFAT, e.iOffset < x.iOffset)
    (hbound : x.iOffset.toNat ≤ st.data.length) :
    removeF
      { st with
        vcFAT := st.vcFAT ++ [x],
        data := streamInsert st.data
          (x.iOffset + (x.lenHeader : Int)).toNat x.iSize } i = st := by
  have hfind : findEid (st.vcFAT ++ [x]) i = some x :=
    findEid_append_last _ _ _ hi hfresh
  have herase : eraseFirstEid (st.vcFAT ++ [x]) i = st.vcFAT :=
    eraseFirstEid_append_last _ _ _ hi hfresh
  simp only [removeF, hfind, herase]
  rw [shiftFilesAux_fst]
  rw [map_id_of_mem (fun e he => shiftEntrySpec_of_lt _ _ _ _ e (hlt e he))]
  rw [hlh]
  simp only [Nat.cast_zero, add_zero, Nat.add_zero]
  rw [streamRemove_streamInsert _ _ _ hbound]

theorem removeF_insertBefore_fresh (st : ArchState) (x : FATEntry)
    (i b : Nat) (hi : x.eid = i) (hlh : x.lenHeader = 0)
    (hfresh : i ∉ st.vcFAT.map FATEntry.eid)
    (hbound : x.iOffset.toNat ≤ st.data.length) :
    removeF
      { st with
        vcFAT := insertBeforeEid
          ((shiftFilesAux (some i) (x.iOffset + (x.lenHeader : Int))
            (x.iSize : Int) 1 st.vcFAT).1) b x,
        data := streamInsert st.data
          (x.iOffset + (x.lenHeader : Int)).toNat x.iSize } i = st := by
  rw [hlh]
  simp only [Nat.cast_zero, add_zero]
  rw [shiftFilesAux_fst]
  have hfreshM :
      i ∉ (st.vcFAT.map
        (shiftEntrySpec (some i) x.iOffset (x.iSize : Int) 1)).map
          FATEntry.eid := by
    rw [map_eid_shift]
    exact hfresh
  have hfind : findEid (insertBeforeEid
      (st.vcFAT.map (shiftEntrySpec (some i) x.iOffset (x.iSize : Int) 1))
        b x) i = some x :=
    findEid_insertBeforeEid _ _ _ _ hi hfreshM
  have herase : eraseFirstEid (insertBeforeEid
      (st.vcFAT.map (shiftEntrySpec (some i) x.iOffset (x.iSize : Int) 1))
        b x) i =
      st.vcFAT.map (shiftEntrySpec (some i) x.iOffset (x.iSize : Int) 1) :=
    eraseFirstEid_insertBeforeEid _ _ _ _ hi hfreshM
  simp only [removeF, hfind, herase]
  rw [shiftFilesAux_fst]
  rw [hlh]
  simp only [Nat.cast_zero, add_zero, Nat.add_zero]
  have hcancel :
      (st.vcFAT.map (shiftEntrySpec (some i) x.iOffset (x.iSize : Int) 1)).map
        (shiftEntrySpec (some i) x.iOffset (-(x.iSize : Int)) (-1)) =
        st.vcFAT := by
    rw [List.map_map]
    exact map_id_of_mem (fun e he =>
      shiftEntrySpec_cancel i x.iOffset x.iSize e (by
        intro hc
        apply hfresh
        rw [← hc]
        exact List.mem_map_of_mem _ he))
  rw [hcancel]
  rw [streamRemove_streamInsert _ _ _ hbound]

/- ========================= claim theorems ========================= -/

/-- C2: a call to `shiftFiles(skip, fromOffset, deltaOffset, deltaIndex)`
adds `deltaOffset` to the offset and `deltaIndex` to the index of
exactly those entries of the file vector whose offset is at least
`fromOffset` and which are not the skip entry, and every call it makes
to `updateFileOffset` receives the entry with its in-memory index (and
offset) already updated, together with `deltaOffset`. -/
theorem shiftFiles_updates_exactly (skip : Option Nat) (offStart dO dI : Int)
    (l : List FATEntry) :
    (shiftFilesAux skip offStart dO dI l).1 =
      l.map (shiftEntrySpec skip offStart dO dI) ∧
    (shiftFilesAux skip offStart dO dI l).2 =
      (l.filter
        (fun e => decide (¬ skip = some e.eid ∧ offStart ≤ e.iOffset))).map
        (fun e => ({ e with iOffset := e.iOffset + dO,
                            iIndex := e.iIndex + dI }, dO)) := by
  refine ⟨shiftFilesAux_fst skip offStart dO dI l, ?_⟩
  induction l with
  | nil => rfl
  | cons e rest ih =>
    simp only [shiftFilesAux, List.filter_cons]
    by_cases h1 : skip = some e.eid
    · have hc : (decide (¬ skip = some e.eid ∧ offStart ≤ e.iOffset)) = false := by
        simp [h1]
      rw [if_pos h1, hc]
      simpa using ih
    · by_cases h2 : offStart ≤ e.iOffset
      · have hc : (decide (¬ skip = some e.eid ∧ offStart ≤ e.iOffset)) = true := by
          simp [h1, h2]
        rw [if_neg h1, if_pos h2, hc]
        simpa using ih
      · have hc : (decide (¬ skip = some e.eid ∧ offStart ≤ e.iOffset)) = false := by
          simp [h1, h2]
        rw [if_neg h1, if_neg h2, hc]
        simpa using ih

/-- C1 counterexample: in the archive holding a single zero-byte file at
offset 0, appending a 5-byte file at the end and then removing it does
not restore the original state: the removal's shift pass also catches
the zero-byte entry (its offset equals the removed file's offset),
dragging its offset to -5 and its index to -1, though the insert never
shifted it. -/
theorem insertF_removeF_not_roundtrip :
    removeF (insertF archC1 none 1 "b" 5 "t" 0) 1 ≠ archC1 := by decide

/-- C1 amended: inserting a file and then removing it through the
returned handle restores both the file vector and the logical byte
stream (for the engine with its default format hooks), provided the
insertion offset lies inside the current stream and, when the insertion
appends to the end of the archive, every existing entry's offset is
strictly below the new file's offset; without the latter proviso a
zero-size entry sitting at the append position is shifted by the remove
but not by the insert. -/
theorem insertF_removeF_roundtrip (st : ArchState) (idBefore : Option Nat)
    (newEid : Nat) (nm ty : String) (sz attr : Nat)
    (hFresh : newEid ∉ st.vcFAT.map FATEntry.eid)
    (hPos : (insertTargetOff st idBefore).toNat ≤ st.data.length)
    (hApp : findValidEntry st idBefore = none →
      ∀ e ∈ st.vcFAT, e.iOffset < insertTargetOff st idBefore) :
    removeF (insertF st idBefore newEid nm sz ty attr) newEid = st := by
  cases hfv : findValidEntry st idBefore with
  | some before =>
    have hPos' :
        (newEntryMid before newEid nm sz ty attr).iOffset.toNat ≤
          st.data.length := by
      simpa [insertTargetOff, hfv, newEntryMid] using hPos
    simp only [insertF, hfv]
    exact removeF_insertBefore_fresh st
      (newEntryMid before newEid nm sz ty attr) newEid before.eid
      rfl rfl hFresh hPos'
  | none =>
    have hApp' := hApp hfv
    cases hlast : st.vcFAT.getLast? with
    | some last =>
      have hPos' :
          (newEntryEnd last newEid nm sz ty attr).iOffset.toNat ≤
            st.data.length := by
        simpa [insertTargetOff, hfv, hlast, newEntryEnd] using hPos
      have hlt : ∀ e ∈ st.vcFAT,
          e.iOffset < (newEntryEnd last newEid nm sz ty attr).iOffset := by
        intro e he
        have h1 := hApp' e he
        simp only [insertTargetOff, hfv, hlast] at h1
        simpa [newEntryEnd] using h1
      simp only [insertF, hfv, hlast]
      exact removeF_append_fresh st (newEntryEnd last newEid nm sz ty attr)
        newEid rfl rfl hFresh hlt hPos'
    | none =>
      have hPos' :
          (newEntryEmpty st.offFirstFile newEid nm sz ty attr).iOffset.toNat ≤
            st.data.length := by
        simpa [insertTargetOff, hfv, hlast, newEntryEmpty] using hPos
      have hlt : ∀ e ∈ st.vcFAT,
          e.iOffset <
            (newEntryEmpty st.offFirstFile newEid nm sz ty attr).iOffset := by
        intro e he
        have h1 := hApp' e he
        simp only [insertTargetOff, hfv, hlast] at h1
        simpa [newEntryEmpty] using h1
      simp only [insertF, hfv, hlast]
      exact removeF_append_fresh st
        (newEntryEmpty st.offFirstFile newEid nm sz ty attr)
        newEid rfl rfl hFresh hlt hPos'

/-- C1 witness: a concrete two-file archive where inserting a 3-byte
file before the first entry and removing it again restores the state
exactly. -/
theorem insertF_removeF_roundtrip_witness :
    ((2 : Nat) ∉ archW.vcFAT.map FATEntry.eid) ∧
    (insertTargetOff archW (some 0)).toNat ≤ archW.data.length ∧
    (findValidEntry archW (some 0) = none →
      ∀ e ∈ archW.vcFAT, e.iOffset < insertTargetOff archW (some 0)) ∧
    removeF (insertF archW (some 0) 2 "three" 3 "t" 0) 2 = archW :=
  ⟨by decide, by decide, by decide,
    insertF_removeF_roundtrip archW (some 0) 2 "three" "t" 3 0
      (by decide) (by decide) (by decide)⟩

/-- C3 counterexample: resizing the single 10-byte entry of a Monster
Bash archive to 70000 bytes raises the stored-size limit error, yet the
archive state is not left unchanged: the file vector already carries
the new size when the error is raised. -/
theorem bash_resize_limit_mutates :
    (resizeBash archBash 0 70000 70000).2 = some BashError.storedSizeLimit ∧
    (resizeBash archBash 0 70000 70000).1.vcFAT ≠ archBash.vcFAT := by
  decide

/-- C3 amended: a Monster Bash resize whose new stored size or new real
size exceeds 65535 raises the matching format-limit error (the stored
size is checked first), but the limit is enforced only after partial
mutation.  At the point of the error the archive state consists of
exactly the first two steps of `resize`: the byte stream has been
spliced by the stored-size delta (grown behind the old data for an
enlargement, shrunk at the new end for a reduction, untouched when the
stored size is unchanged) and the resized entry in the file vector
carries the new stored and real sizes, while every other entry is
untouched — the shift of the remaining entries and the on-disk FAT
size write are skipped. -/
theorem bash_resize_limit_after_mutation (st : ArchState) (eid : Nat)
    (e : FATEntry) (ns nr : Nat)
    (hFind : findEid st.vcFAT eid = some e)
    (hLim : 65535 < ns ∨ 65535 < nr) :
    (resizeBash st eid ns nr).2 =
      some (if 65535 < ns then BashError.storedSizeLimit
        else BashError.realSizeLimit) ∧
    (resizeBash st eid ns nr).1.vcFAT =
      st.vcFAT.map (fun a => if a.eid = eid
        then { e with iSize := ns, realSize := nr } else a) ∧
    (resizeBash st eid ns nr).1.data =
      (if (0 : Int) < (ns : Int) - (e.iSize : Int) then
        streamInsert st.data
          (e.iOffset + (e.lenHeader : Int) + (e.iSize : Int)).toNat
          ((ns : Int) - (e.iSize : Int)).toNat
      else if (ns : Int) - (e.iSize : Int) < 0 then
        streamRemove st.data
          (e.iOffset + (e.lenHeader : Int) + (ns : Int)).toNat
          (-((ns : Int) - (e.iSize : Int))).toNat
      else st.data) := by
  simp only [resizeBash, hFind, bashUpdateFileSize]
  by_cases hns : 65535 < ns
  · rw [if_pos (show ({ e with iSize := ns, realSize := nr } :
      FATEntry).iSize > 65535 from hns)]
    refine ⟨?_, rfl, ?_⟩
    · rw [if_pos hns]
    · split_ifs <;> rfl
  · have hnr : 65535 < nr := hLim.resolve_left hns
    rw [if_neg (show ¬ ({ e with iSize := ns, realSize := nr } :
      FATEntry).iSize > 65535 from hns)]
    rw [if_pos (show ({ e with iSize := ns, realSize := nr } :
      FATEntry).realSize > 65535 from hnr)]
    refine ⟨?_, rfl, ?_⟩
    · rw [if_neg hns]
    · split_ifs <;> rfl

/-- C3 witness: resizing the 10-byte entry of `archBash` to a stored
size of 100 with a decompressed size of 70000 exercises the real-size
half of the limit: the real-size error is raised while the file vector
already carries the new sizes. -/
theorem bash_resize_limit_after_mutation_witness :
    findEid archBash.vcFAT 0 = some bashE0 ∧
    ((65535 : Nat) < 100 ∨ (65535 : Nat) < 70000) ∧
    (resizeBash archBash 0 100 70000).2 = some BashError.realSizeLimit ∧
    (resizeBash archBash 0 100 70000).1.vcFAT =
      archBash.vcFAT.map (fun a => if a.eid = 0
        then { bashE0 with iSize := 100, realSize := 70000 } else a) := by
  refine ⟨by decide, by decide, ?_, ?_⟩
  · have h := (bash_resize_limit_after_mutation archBash 0 bashE0 100 70000
      (by decide) (Or.inr (by decide))).1
    rw [if_neg (show ¬ (65535 < 100) by decide)] at h
    exact h
  · exact (bash_resize_limit_after_mutation archBash 0 bashE0 100 70000
      (by decide) (Or.inr (by decide))).2.1

end GameArchive
